import Mathlib

/-!
Verification development for the ASM92 two-pass assembler (src/asm92.cpp).

The core of the program is the function `parse`, run twice over the source
lines: a first pass (`write = false`) that records label addresses and the
`base_addr` directive, and a second pass (`write = true`) that resolves
operands and emits bytes.  We embed that core shallowly: characters are byte
values (`Nat`), a source line is a `List Nat`, the label table and the
directive store are association lists where an insert prepends (so a later
binding shadows an earlier one, matching overwrite in a hash map), and all
byte-sized C variables are tracked as `Nat` with explicit `% 256` at the
points where the C code truncates (`unsigned char` assignments and
`signed char` casts).

Line classification follows asm92.cpp exactly: trim, blank, comment (first
char 35), directive (first char 64, handled on pass 1 only and -- as in the
source -- without incrementing the line counter), label (the line contains
a colon, char 58; the text before the last colon is the label), otherwise
instruction.
-/

namespace Asm92

/-- ASCII toupper, as used on bytes by the source. -/
def toupperN (c : Nat) : Nat := if 97 ≤ c ∧ c ≤ 122 then c - 32 else c

/-- Whitespace set trimmed by `trim` (strim.h trims tab, nl, vtab, ff, cr, space). -/
def isWhiteN (c : Nat) : Bool := c == 9 || c == 10 || c == 11 || c == 12 || c == 13 || c == 32

/-- Left trim. -/
def trimL (l : List Nat) : List Nat := l.dropWhile isWhiteN

/-- Trim both ends, as `trim` from strim.h does. -/
def trim (l : List Nat) : List Nat := ((trimL ((trimL l).reverse)).reverse)

/-- Hex-digit test used throughout the source: 48-57 or 65-70 (after toupper). -/
def isHexDigitN (c : Nat) : Bool := (48 ≤ c && c ≤ 57) || (65 ≤ c && c ≤ 70)

/-- The value computed by `val = c - 48; if (c > 64) val = c - 55;` where `val`
is an `unsigned char`: subtraction is modulo 256. -/
def hexVal (c : Nat) : Nat := if c > 64 then (c + 201) % 256 else (c + 208) % 256

/-- One step of the hex accumulation `x <<= 4; x |= (val & 0x0F)` on an
`unsigned char` x. -/
def hexStep (acc c : Nat) : Nat := ((acc * 16) % 256) ||| (hexVal (toupperN c) &&& 15)

/-- Splits a list at the LAST occurrence of `sep`, mirroring what the greedy
regex `^.*:` (resp. `^.*=`) together with the following substr arithmetic
extracts in the source: the text before the last separator and the text
after it.  `none` when `sep` does not occur. -/
def breakLast (sep : Nat) : List Nat → Option (List Nat × List Nat)
  | [] => none
  | c :: rest =>
    match breakLast sep rest with
    | some (a, b) => some (c :: a, b)
    | none => if c = sep then some ([], rest) else none

/-- Association-list lookup (hash-map `find`). -/
def alookup : List (List Nat × Nat) → List Nat → Option Nat
  | [], _ => none
  | (k, v) :: rest, key => if key = k then some v else alookup rest key

/-- Plain `Nat`-keyed lookup for the instruction map. -/
def nlookup : List (Nat × Nat) → Nat → Option Nat
  | [], _ => none
  | (k, v) :: rest, key => if key = k then some v else nlookup rest key

/-- Error kinds, one per `goto err` site of `parse`. -/
inductive ErrKind where
  | invalidHex
  | invalidDirective
  | invalidAssignment
  | leadingComma
  | invalidMnemonic
  | badJmpOperand
  | unmappable
  deriving Repr, DecidableEq

/-- Diagnostic record: the line counter value and the text printed at the
error site (the trimmed line for most errors, the directive value text for
`invalidHex`, the mnemonic for `invalidMnemonic`). -/
structure Err where
  kind : ErrKind
  linenum : Nat
  line : List Nat
  deriving Repr, DecidableEq

/-- Assembler state threaded through `parse`: the (static) label table, the
(global) directive store, the `adjustBase` flag, the program address
counter `caddr`, the line counter, and the bytes written to the output
file so far. -/
structure St where
  lblmap : List (List Nat × Nat)
  dirs : List (List Nat × Nat)
  adjustBase : Bool
  caddr : Nat
  linenum : Nat
  out : List Nat
  deriving Repr, DecidableEq

/-- Operand-parsing state of one instruction line: `numops`, `ops[0..1]`,
`optype[0..1]`. -/
structure OpSt where
  numops : Nat
  ops0 : Nat
  ops1 : Nat
  optype0 : Nat
  optype1 : Nat
  deriving Repr, DecidableEq

/-- The key of the only supported directive, base_addr. -/
def baseAddrKey : List Nat := [98, 97, 115, 101, 95, 97, 100, 100, 114]

/-- Initial directive store: base_addr defaults to 0. -/
def dirs0 : List (List Nat × Nat) := [(baseAddrKey, 0)]

/-- directives[base_addr] (the key is always present; 0 if somehow absent). -/
def baseDir (dirs : List (List Nat × Nat)) : Nat := (alookup dirs baseAddrKey).getD 0

/-- The built-in instruction map: HLT, MOV A X, ADD A X, JMP X, BR X. -/
def imap0 : List (Nat × Nat) :=
  [(0x484C5400, 0x03), (0x4D4F5621, 0x04), (0x41444421, 0x0B),
   (0x4A4D5010, 0x50), (0x42520010, 0x80)]

/-- Valid jump/branch mnemonics: JMP, JSR, BR, BRZ, BRN. -/
def jmpcodesL : List (List Nat) :=
  [[74, 77, 80], [74, 83, 82], [66, 82], [66, 82, 90], [66, 82, 78]]

/-- The ALU_CARRY_ADJUST preprocessor constant (2 by default). -/
def aluCarryAdjust : Nat := 2

/-- The `(signed char)` cast of a byte. -/
def sgnByte (b : Nat) : Int := if 128 ≤ b then (b : Int) - 256 else (b : Int)

/-- Conversion of an int back to an `unsigned char` (the assignment to
`ops[0]`): reduction modulo 256. -/
def byteOfInt (i : Int) : Nat := (i % 256).toNat

/-- The relative-branch offset computation of parse (lines 570-571): back
branches (target below the current address) subtract `caddr +
ALU_CARRY_ADJUST`, forward branches subtract `caddr + 1`, from the signed
reading of the target byte; the result is stored as a twos-complement byte. -/
def branchEncode (a caddr : Nat) : Nat :=
  if a < caddr then byteOfInt (sgnByte a - ((caddr : Int) + (aluCarryAdjust : Int)))
  else byteOfInt (sgnByte a - ((caddr : Int) + 1))

/-- The mnemonic-reading loop: uppercase characters up to the first space
(which is consumed); returns the mnemonic and the remaining characters. -/
def readMnemonic : List Nat → List Nat × List Nat
  | [] => ([], [])
  | c :: rest =>
    if c = 32 then ([], rest)
    else
      let r := readMnemonic rest
      (toupperN c :: r.1, r.2)

/-- The jump/branch operand loop (parse lines 548-160): every character up to
an inline comment marker is appended to the label buffer and simultaneously
folded into `ops[0]` as a hex nibble.  Returns the raw label text, the
accumulated byte and whether a comment marker was hit (in the source the
flag suppresses the later generic operand loop; that loop is equally
unreachable when the whole line was consumed, so the flag is carried but
never read). -/
def jmpScan (acc : Nat) : List Nat → List Nat × Nat × Bool
  | [] => ([], acc, false)
  | c :: rest =>
    if c = 35 then ([], acc, true)
    else
      let r := jmpScan (hexStep acc c) rest
      (c :: r.1, r.2.1, r.2.2)

/-- Hex accumulation of a whole token, as `jmpScan` performs it on a
comment-free token: the literal value of the operand text. -/
def hexLit (l : List Nat) : Nat := l.foldl hexStep 0

/-- Resolution of a jump/branch operand (parse lines 561-577): the raw text
is base-adjusted as a literal, then a label match overrides it; for a
matched label and a mnemonic starting with B the relative offset is
computed; a non-label text longer than two characters is a hard error. -/
def jmpOperand (st : St) (mnemonic rest : List Nat) : Except ErrKind Nat :=
  let r := jmpScan 0 rest
  let lbl := trim r.1
  let lit := (r.2.1 + baseDir st.dirs) % 256
  match alookup st.lblmap lbl with
  | some a => .ok (if mnemonic.headI = 66 then branchEncode a st.caddr else a)
  | none => if lbl.length > 2 then .error .badJmpOperand else .ok lit

/-- The generic operand loop (parse lines 580-606): spaces are skipped, 35
stops the line, 36 marks a direct address, the first comma moves to the
second operand and a further comma is the leading-comma hard error, hex
digits accumulate into the current operand (typing it immediate when it is
still untyped), anything else is silently ignored. -/
def opScan (st : OpSt) : List Nat → Except Unit OpSt
  | [] => .ok st
  | c0 :: rest =>
    let c := toupperN c0
    if c = 32 then opScan st rest
    else if c = 35 then .ok st
    else if c = 36 then
      if st.numops = 0 then opScan { st with optype0 := 2 } rest
      else opScan { st with optype1 := 2 } rest
    else if c = 44 then
      if st.numops = 0 then opScan { st with numops := 1 } rest else .error ()
    else if isHexDigitN c then
      if st.numops = 0 then
        opScan { st with ops0 := ((st.ops0 * 16) % 256) ||| (hexVal c &&& 15),
                         optype0 := if st.optype0 = 0 then 1 else st.optype0 } rest
      else
        opScan { st with ops1 := ((st.ops1 * 16) % 256) ||| (hexVal c &&& 15),
                         optype1 := if st.optype1 = 0 then 1 else st.optype1 } rest
    else opScan st rest

/-- The instruction-code loop (parse lines 611-621): each mnemonic character
is placed in the next high-order byte; a fourth character is the
invalid-mnemonic hard error. -/
def mnemBits (i acc : Nat) : List Nat → Except Unit Nat
  | [] => .ok acc
  | c :: rest =>
    if i > 2 then .error ()
    else mnemBits (i + 1) (acc ||| (c <<< (8 * (3 - i)))) rest

/-- The 32-bit instruction lookup key (parse lines 610-625): mnemonic bytes
in the three high bytes, then `(optype[0] << 4) | (optype[1] & 0x0F)`. -/
def buildIcode (mnemonic : List Nat) (t0 t1 : Nat) : Except Unit Nat :=
  match mnemBits 0 0 mnemonic with
  | .error e => .error e
  | .ok mb => .ok (mb ||| ((t0 <<< 4) ||| (t1 &&& 15)))

/-- Key construction, map lookup and emission for one instruction line
(parse lines 607-655): `numops` is recomputed from the operand types, the
key is resolved through the instruction map, and on the writing pass the
target byte followed by the operand bytes is appended to the output; the
program address advances by one plus the operand count on both passes. -/
def emitInstr (imap : List (Nat × Nat)) (write : Bool) (st : St)
    (line mnemonic : List Nat) (o : OpSt) : Except Err St :=
  let numops := if o.optype1 ≠ 0 then 2 else if o.optype0 ≠ 0 then 1 else o.numops
  match buildIcode mnemonic o.optype0 o.optype1 with
  | .error _ => .error ⟨.invalidMnemonic, st.linenum, mnemonic⟩
  | .ok icode =>
    match nlookup imap icode with
    | none => .error ⟨.unmappable, st.linenum, line⟩
    | some mpc =>
      .ok { st with
            out := if write then st.out ++ (mpc :: List.take numops [o.ops0, o.ops1]) else st.out,
            caddr := st.caddr + 1 + numops,
            linenum := st.linenum + 1 }

/-- Handling of an instruction line: read the mnemonic; on the writing pass
a jump/branch mnemonic takes the dedicated operand resolution (the generic
loop then has nothing left to read), otherwise the generic operand loop
runs. -/
def instrStep (imap : List (Nat × Nat)) (write : Bool) (st : St)
    (line : List Nat) : Except Err St :=
  let r := readMnemonic line
  let mnemonic := r.1
  if write ∧ mnemonic ∈ jmpcodesL then
    match jmpOperand st mnemonic r.2 with
    | .error k => .error ⟨k, st.linenum, line⟩
    | .ok v => emitInstr imap write st line mnemonic ⟨1, v, 0, 1, 0⟩
  else
    match opScan ⟨0, 0, 0, 0, 0⟩ r.2 with
    | .error _ => .error ⟨.leadingComma, st.linenum, line⟩
    | .ok o => emitInstr imap write st line mnemonic o

/-- The directive-value loop (parse lines 471-486): spaces skipped, 35 stops,
hex digits accumulate, anything else is the invalid-hex hard error.  The
accumulator starts at 0 here; in the source the underlying `mpc` variable
is left uninitialized before its first use, but any two-digit value (as in
every claim) shifts the stale bits out of the byte entirely. -/
def dirHexVal (acc : Nat) : List Nat → Except Unit Nat
  | [] => .ok acc
  | c0 :: rest =>
    let c := toupperN c0
    if c = 32 then dirHexVal acc rest
    else if c = 35 then .ok acc
    else if isHexDigitN c then dirHexVal (((acc * 16) % 256) ||| (hexVal c &&& 15)) rest
    else .error ()

/-- A directive line on the first pass (parse lines 463-505): the text
between the leading 64 and the last 61 names the directive, the text after
it is the hex value; base_addr additionally bumps the program address and
arms `adjustBase`.  The line counter is NOT incremented on this path, as in
the source. -/
def directiveStep (st : St) (line : List Nat) : Except Err St :=
  match breakLast 61 line with
  | none => .error ⟨.invalidAssignment, st.linenum, line⟩
  | some (pre, post) =>
    let lbl := trim (pre.drop 1)
    let value := trim post
    if (alookup st.dirs lbl).isSome then
      match dirHexVal 0 value with
      | .error _ => .error ⟨.invalidHex, st.linenum, value⟩
      | .ok v =>
        let dirs' := (lbl, v) :: st.dirs
        if lbl = baseAddrKey then
          .ok { st with dirs := dirs', caddr := st.caddr + v, adjustBase := true }
        else .ok { st with dirs := dirs' }
    else .error ⟨.invalidDirective, st.linenum, line⟩

/-- Processing of one source line by `parse`. -/
def processLine (imap : List (Nat × Nat)) (write : Bool) (st : St)
    (rawLine : List Nat) : Except Err St :=
  let line := trim rawLine
  if line = [] then .ok { st with linenum := st.linenum + 1 }
  else if line.headI = 35 then .ok { st with linenum := st.linenum + 1 }
  else if line.headI = 64 then
    if write then .ok st else directiveStep st line
  else
    match breakLast 58 line with
    | some (pre, _) =>
      if write then .ok { st with linenum := st.linenum + 1 }
      else .ok { st with lblmap := (pre, st.caddr % 256) :: st.lblmap,
                         linenum := st.linenum + 1 }
    | none => instrStep imap write st line

/-- The line loop of `parse`. -/
def runLines (imap : List (Nat × Nat)) (write : Bool) (st : St) :
    List (List Nat) → Except Err St
  | [] => .ok st
  | l :: rest =>
    match processLine imap write st l with
    | .error e => .error e
    | .ok st' => runLines imap write st' rest

/-- One call of `parse`: on the writing pass, a base address detected on the
first pass is first re-applied to the program address counter. -/
def parseRun (imap : List (Nat × Nat)) (write : Bool) (st : St)
    (lines : List (List Nat)) : Except Err St :=
  let st1 :=
    if st.adjustBase && write then
      { st with caddr := st.caddr + baseDir st.dirs, adjustBase := false }
    else st
  runLines imap write st1 lines

/-- State at the start of a run. -/
def initSt : St := ⟨[], dirs0, false, 0, 1, []⟩

/-- A full assembly run: pass 1 (labels), then pass 2 (emission) with the
address and line counters re-initialized but the label table, directive
store and adjustBase flag carried over.  A hard error in either pass aborts
the run with no output artifact (the source deletes the partial file). -/
def assemble (imap : List (Nat × Nat)) (lines : List (List Nat)) : Except Err St :=
  match parseRun imap false initSt lines with
  | .error e => .error e
  | .ok st1 => parseRun imap true { st1 with caddr := 0, linenum := 1 } lines

/-- The byte count reported on success: `caddr - directives[base_addr]`. -/
def reportedCount (st : St) : Nat := st.caddr - baseDir st.dirs

/-- Value shift applied to a label table when the program address of every
definition moves by `b` (stored addresses are bytes). -/
def shiftMap (b : Nat) (m : List (List Nat × Nat)) : List (List Nat × Nat) :=
  m.map (fun p => (p.1, (p.2 + b) % 256))

/-- Characters a label name can be made of that are not hex digits even after
upper-casing: the letters G-Z in either case, and underscore. -/
def nonHexIdentN (c : Nat) : Prop :=
  (71 ≤ c ∧ c ≤ 90) ∨ (103 ≤ c ∧ c ≤ 122) ∨ c = 95

instance (c : Nat) : Decidable (nonHexIdentN c) := by
  unfold nonHexIdentN; infer_instance

instance {ε α : Type} [DecidableEq ε] [DecidableEq α] : DecidableEq (Except ε α)
  | .error e, .error e' =>
    if h : e = e' then .isTrue (by rw [h]) else .isFalse (fun hh => h (Except.error.inj hh))
  | .error _, .ok _ => .isFalse (fun hh => Except.noConfusion hh)
  | .ok _, .error _ => .isFalse (fun hh => Except.noConfusion hh)
  | .ok a, .ok a' =>
    if h : a = a' then .isTrue (by rw [h]) else .isFalse (fun hh => h (Except.ok.inj hh))

/-! Concrete fixtures used by the claims.  Each line is given as its byte
values; the ASCII text is noted alongside. -/

/-- The line `MOV $00, 00`. -/
def lineMOV0 : List Nat := [77, 79, 86, 32, 36, 48, 48, 44, 32, 48, 48]

/-- Claim C1 program: `JMP 00`, a label `a:` at program address 2, seven
3-byte `MOV $00, 00` instructions, and `BR a` with its opcode at program
address 0x17 and its operand byte at program address 0x18. -/
def progC1 : List (List Nat) :=
  [[74, 77, 80, 32, 48, 48], [97, 58],
   lineMOV0, lineMOV0, lineMOV0, lineMOV0, lineMOV0, lineMOV0, lineMOV0,
   [66, 82, 32, 97]]

/-- The line `ADD $04, 5`. -/
def lineADD : List Nat := [65, 68, 68, 32, 36, 48, 52, 44, 32, 53]

/-- The directive line `@base_addr=1F`. -/
def dirLine1F : List Nat := [64, 98, 97, 115, 101, 95, 97, 100, 100, 114, 61, 49, 70]

/-- Claim C6 failing input: `@base_addr=1F` then the unmappable line `FOO`. -/
def progC6 : List (List Nat) := [dirLine1F, [70, 79, 79]]

/-- Claim C3 counterexample program: `@base_addr=1F` then `JMP 05`. -/
def progC3 : List (List Nat) := [dirLine1F, [74, 77, 80, 32, 48, 53]]

/-- The line `MOV ,4` (a comma before any operand). -/
def lineMOVcomma : List Nat := [77, 79, 86, 32, 44, 52]

/-- An instruction map extended (as mapping.conf may) with a MOV entry whose
first operand slot is empty: key `MOV` with operand types (0, 1). -/
def imapC5 : List (Nat × Nat) := (0x4D4F5601, 9) :: imap0

/-- The line `ADD $04, 5, 6` (a second comma). -/
def lineADD2c : List Nat := [65, 68, 68, 32, 36, 48, 52, 44, 32, 53, 44, 32, 54]

/-- Relates a pass-1 state of a run whose program address started `b` higher
(because of a leading base_addr directive) to the corresponding state of the
base-0 run: label addresses are shifted by `b` modulo 256, the program
address by `b`, and the directive store, adjustBase flag and output are
those of the shifted run. -/
def twinMap (b : Nat) (d : List (List Nat × Nat)) (ab : Bool) (o : List Nat)
    (t : St) : St :=
  ⟨shiftMap b t.lblmap, d, ab, t.caddr + b, t.linenum, o⟩

/-! ### General lemmas -/

theorem lor_eq_add_of_lt {x y k : Nat} (hx : x % 2 ^ k = 0) (hy : y < 2 ^ k) :
    x ||| y = x + y := by
  obtain ⟨q, hq⟩ := Nat.dvd_of_mod_eq_zero hx
  subst hq
  exact (Nat.mul_add_lt_is_or hy q).symm

theorem toupperN_ne_of_ne {c v : Nat} (hv : v < 65 ∨ 90 < v) (h : c ≠ v) :
    toupperN c ≠ v := by
  unfold toupperN
  split <;> omega

theorem toupperN_of_nonHex {c : Nat} (h : nonHexIdentN c) :
    (71 ≤ toupperN c ∧ toupperN c ≤ 90) ∨ toupperN c = 95 := by
  unfold nonHexIdentN at h
  unfold toupperN
  split <;> omega

theorem isHexDigitN_iff {c : Nat} :
    isHexDigitN c = true ↔ (48 ≤ c ∧ c ≤ 57) ∨ (65 ≤ c ∧ c ≤ 70) := by
  simp [isHexDigitN]

theorem isWhiteN_eq_false_iff {c : Nat} :
    isWhiteN c = false ↔ ¬(c = 9 ∨ c = 10 ∨ c = 11 ∨ c = 12 ∨ c = 13 ∨ c = 32) := by
  simp [isWhiteN]
  tauto

theorem headI_append {a b : List Nat} (h : a ≠ []) : (a ++ b).headI = a.headI := by
  cases a with
  | nil => exact absurd rfl h
  | cons c t => rfl

theorem headI_mem {l : List Nat} (h : l ≠ []) : l.headI ∈ l := by
  cases l with
  | nil => exact absurd rfl h
  | cons c t => exact List.mem_cons_self c t

theorem trimL_cons {c : Nat} {t : List Nat} (h : isWhiteN c = false) :
    trimL (c :: t) = c :: t := by
  simp [trimL, List.dropWhile_cons, h]

theorem trimL_eq_self {l : List Nat} (h : isWhiteN l.headI = false) : trimL l = l := by
  cases l with
  | nil => rfl
  | cons c t => exact trimL_cons h

theorem trim_eq_self_of_ends {l : List Nat} (h1 : isWhiteN l.headI = false)
    (h2 : isWhiteN l.reverse.headI = false) : trim l = l := by
  unfold trim
  rw [trimL_eq_self h1, trimL_eq_self h2, List.reverse_reverse]

theorem trim_eq_self_all {l : List Nat} (h : ∀ c ∈ l, isWhiteN c = false) : trim l = l := by
  rcases eq_or_ne l [] with rfl | hne
  · rfl
  · refine trim_eq_self_of_ends (h _ (headI_mem hne)) ?_
    have hr : l.reverse ≠ [] := by simpa using hne
    exact h _ (List.mem_reverse.mp (headI_mem hr))

theorem breakLast_of_not_mem {sep : Nat} {l : List Nat} (h : sep ∉ l) :
    breakLast sep l = none := by
  induction l with
  | nil => rfl
  | cons c t ih =>
    have hc : c ≠ sep := fun hh => h (hh ▸ List.mem_cons_self c t)
    have ht : sep ∉ t := fun hh => h (List.mem_cons_of_mem c hh)
    simp [breakLast, ih ht, hc]

theorem breakLast_append_self {sep : Nat} {l : List Nat} (h : sep ∉ l) :
    breakLast sep (l ++ [sep]) = some (l, []) := by
  induction l with
  | nil => simp [breakLast]
  | cons c t ih =>
    have ht : sep ∉ t := fun hh => h (List.mem_cons_of_mem c hh)
    simp [breakLast, ih ht]

theorem readMnemonic_append {m r : List Nat} (h : 32 ∉ m) :
    readMnemonic (m ++ 32 :: r) = (m.map toupperN, r) := by
  induction m with
  | nil => rfl
  | cons c t ih =>
    have hc : c ≠ 32 := fun hh => h (hh ▸ List.mem_cons_self c t)
    have ht : 32 ∉ t := fun hh => h (List.mem_cons_of_mem c hh)
    simp [readMnemonic, hc, ih ht]

theorem readMnemonic_all {m : List Nat} (h : 32 ∉ m) :
    readMnemonic m = (m.map toupperN, []) := by
  induction m with
  | nil => rfl
  | cons c t ih =>
    have hc : c ≠ 32 := fun hh => h (hh ▸ List.mem_cons_self c t)
    have ht : 32 ∉ t := fun hh => h (List.mem_cons_of_mem c hh)
    simp [readMnemonic, hc, ih ht]

theorem jmpScan_no_hash {l : List Nat} (h : 35 ∉ l) (acc : Nat) :
    jmpScan acc l = (l, l.foldl hexStep acc, false) := by
  induction l generalizing acc with
  | nil => rfl
  | cons c t ih =>
    have hc : c ≠ 35 := fun hh => h (hh ▸ List.mem_cons_self c t)
    have ht : 35 ∉ t := fun hh => h (List.mem_cons_of_mem c hh)
    simp [jmpScan, hc, ih ht]

theorem opScan_ignored {l : List Nat} (h : ∀ c ∈ l, nonHexIdentN c) (st : OpSt) :
    opScan st l = .ok st := by
  induction l generalizing st with
  | nil => rfl
  | cons c t ih =>
    have hc := toupperN_of_nonHex (h c (List.mem_cons_self c t))
    have ht : ∀ x ∈ t, nonHexIdentN x := fun x hx => h x (List.mem_cons_of_mem c hx)
    have e : opScan st (c :: t) = opScan st t := by
      simp only [opScan]
      rw [if_neg (by omega), if_neg (by omega), if_neg (by omega), if_neg (by omega),
          if_neg (by rw [isHexDigitN_iff]; omega)]
    rw [e]
    exact ih ht st

theorem opScan_stable {cs : List Nat} (h : ∀ c ∈ cs, c ≠ 44 ∧ c ≠ 35) (st : OpSt)
    (rest : List Nat) :
    ∃ st', opScan st (cs ++ rest) = opScan st' rest ∧ st'.numops = st.numops := by
  induction cs generalizing st with
  | nil => exact ⟨st, rfl, rfl⟩
  | cons c t ih =>
    have hc := h c (List.mem_cons_self c t)
    have h44 : toupperN c ≠ 44 := toupperN_ne_of_ne (by omega) hc.1
    have h35 : toupperN c ≠ 35 := toupperN_ne_of_ne (by omega) hc.2
    have ht : ∀ x ∈ t, x ≠ 44 ∧ x ≠ 35 := fun x hx => h x (List.mem_cons_of_mem c hx)
    by_cases h32 : toupperN c = 32
    · have e : opScan st ((c :: t) ++ rest) = opScan st (t ++ rest) := by
        simp only [List.cons_append, opScan, List.append_eq]
        rw [if_pos h32]
      rw [e]; exact ih ht st
    by_cases h36 : toupperN c = 36
    · by_cases hn : st.numops = 0
      · have e : opScan st ((c :: t) ++ rest) = opScan { st with optype0 := 2 } (t ++ rest) := by
          simp only [List.cons_append, opScan, List.append_eq]
          rw [if_neg h32, if_neg h35, if_pos h36, if_pos hn]
        rw [e]
        obtain ⟨st', he, hnum⟩ := ih ht { st with optype0 := 2 }
        exact ⟨st', he, hnum⟩
      · have e : opScan st ((c :: t) ++ rest) = opScan { st with optype1 := 2 } (t ++ rest) := by
          simp only [List.cons_append, opScan, List.append_eq]
          rw [if_neg h32, if_neg h35, if_pos h36, if_neg hn]
        rw [e]
        obtain ⟨st', he, hnum⟩ := ih ht { st with optype1 := 2 }
        exact ⟨st', he, hnum⟩
    by_cases hhx : isHexDigitN (toupperN c) = true
    · by_cases hn : st.numops = 0
      · have e : opScan st ((c :: t) ++ rest) =
            opScan { st with ops0 := ((st.ops0 * 16) % 256) ||| (hexVal (toupperN c) &&& 15),
                             optype0 := if st.optype0 = 0 then 1 else st.optype0 } (t ++ rest) := by
          simp only [List.cons_append, opScan, List.append_eq]
          rw [if_neg h32, if_neg h35, if_neg h36, if_neg h44, if_pos hhx, if_pos hn]
        rw [e]
        obtain ⟨st', he, hnum⟩ := ih ht _
        exact ⟨st', he, hnum⟩
      · have e : opScan st ((c :: t) ++ rest) =
            opScan { st with ops1 := ((st.ops1 * 16) % 256) ||| (hexVal (toupperN c) &&& 15),
                             optype1 := if st.optype1 = 0 then 1 else st.optype1 } (t ++ rest) := by
          simp only [List.cons_append, opScan, List.append_eq]
          rw [if_neg h32, if_neg h35, if_neg h36, if_neg h44, if_pos hhx, if_neg hn]
        rw [e]
        obtain ⟨st', he, hnum⟩ := ih ht _
        exact ⟨st', he, hnum⟩
    · have e : opScan st ((c :: t) ++ rest) = opScan st (t ++ rest) := by
        simp only [List.cons_append, opScan, List.append_eq]
        rw [if_neg h32, if_neg h35, if_neg h36, if_neg h44, if_neg hhx]
      rw [e]; exact ih ht st

theorem processLine_instr_dispatch (imap : List (Nat × Nat)) (write : Bool) (st : St)
    (l : List Nat) (h0 : trim l = l) (h1 : l ≠ []) (h2 : l.headI ≠ 35)
    (h3 : l.headI ≠ 64) (h4 : breakLast 58 l = none) :
    processLine imap write st l = instrStep imap write st l := by
  simp only [processLine, h0, h4]
  rw [if_neg h1, if_neg h2, if_neg h3]

theorem processLine_label_pass1 (imap : List (Nat × Nat)) (st : St)
    (l pre rest2 : List Nat) (h0 : trim l = l) (h1 : l ≠ []) (h2 : l.headI ≠ 35)
    (h3 : l.headI ≠ 64) (h4 : breakLast 58 l = some (pre, rest2)) :
    processLine imap false st l =
      .ok { st with lblmap := (pre, st.caddr % 256) :: st.lblmap,
                    linenum := st.linenum + 1 } := by
  simp only [processLine, h0, h4]
  rw [if_neg h1, if_neg h2, if_neg h3]
  simp

theorem instrStep_jmp (imap : List (Nat × Nat)) (st : St) (mnem opText : List Nat)
    (hmem : mnem.map toupperN ∈ jmpcodesL) (h32 : 32 ∉ mnem) :
    instrStep imap true st (mnem ++ 32 :: opText) =
      (match jmpOperand st (mnem.map toupperN) opText with
       | .error k => .error ⟨k, st.linenum, mnem ++ 32 :: opText⟩
       | .ok v =>
         emitInstr imap true st (mnem ++ 32 :: opText) (mnem.map toupperN)
           ⟨1, v, 0, 1, 0⟩) := by
  simp only [instrStep, readMnemonic_append h32]
  rw [if_pos (And.intro (by trivial) hmem)]

theorem instrStep_generic (imap : List (Nat × Nat)) (write : Bool) (st : St)
    (l mn rest2 : List Nat) (hr : readMnemonic l = (mn, rest2))
    (hj : ¬(write = true ∧ mn ∈ jmpcodesL)) :
    instrStep imap write st l =
      (match opScan ⟨0, 0, 0, 0, 0⟩ rest2 with
       | .error _ => .error ⟨.leadingComma, st.linenum, l⟩
       | .ok o => emitInstr imap write st l mn o) := by
  simp only [instrStep, hr]
  rw [if_neg hj]

theorem jmpOperand_eval (st : St) (mnem opText : List Nat) (h35 : 35 ∉ opText)
    (htr : trim opText = opText) :
    jmpOperand st mnem opText =
      (match alookup st.lblmap opText with
       | some a => .ok (if mnem.headI = 66 then branchEncode a st.caddr else a)
       | none =>
         if opText.length > 2 then .error .badJmpOperand
         else .ok ((hexLit opText + baseDir st.dirs) % 256)) := by
  simp only [jmpOperand, jmpScan_no_hash h35, htr, hexLit]

theorem emitInstr_jmpOk (imap : List (Nat × Nat)) (st : St) (l mn : List Nat)
    (v k m : Nat) (hk : buildIcode mn 1 0 = .ok k) (hm : nlookup imap k = some m) :
    emitInstr imap true st l mn ⟨1, v, 0, 1, 0⟩ =
      .ok { st with out := st.out ++ [m, v], caddr := st.caddr + 2,
                    linenum := st.linenum + 1 } := by
  have e : emitInstr imap true st l mn ⟨1, v, 0, 1, 0⟩ =
      (match buildIcode mn 1 0 with
       | .error _ => .error ⟨.invalidMnemonic, st.linenum, mn⟩
       | .ok icode =>
         match nlookup imap icode with
         | none => .error ⟨.unmappable, st.linenum, l⟩
         | some mpc =>
           .ok { st with out := st.out ++ [mpc, v], caddr := st.caddr + 2,
                         linenum := st.linenum + 1 }) := rfl
  simp only [e, hk, hm]

theorem emitInstr_badMnem (imap : List (Nat × Nat)) (write : Bool) (st : St)
    (l mn : List Nat) (o : OpSt) (hk : buildIcode mn o.optype0 o.optype1 = .error ()) :
    emitInstr imap write st l mn o = .error ⟨.invalidMnemonic, st.linenum, mn⟩ := by
  simp only [emitInstr, hk]

theorem emitInstr_unmappable (imap : List (Nat × Nat)) (write : Bool) (st : St)
    (l mn : List Nat) (o : OpSt) (k : Nat)
    (hk : buildIcode mn o.optype0 o.optype1 = .ok k) (hm : nlookup imap k = none) :
    emitInstr imap write st l mn o = .error ⟨.unmappable, st.linenum, l⟩ := by
  simp only [emitInstr, hk, hm]

theorem buildIcode_long {m : List Nat} (t0 t1 : Nat) (h : 3 < m.length) :
    buildIcode m t0 t1 = .error () := by
  rcases m with _ | ⟨a, _ | ⟨b, _ | ⟨c, _ | ⟨d, t⟩⟩⟩⟩ <;> simp at h
  rfl

theorem not_mem_jmpcodes_of_long {l : List Nat} (h : 3 < l.length) : l ∉ jmpcodesL := by
  intro hm
  simp only [jmpcodesL, List.mem_cons, List.not_mem_nil, or_false] at hm
  rcases hm with rfl | rfl | rfl | rfl | rfl <;> simp at h

theorem opScan_numops_le {l : List Nat} {st o : OpSt} (h : opScan st l = .ok o)
    (hs : st.numops ≤ 1) : o.numops ≤ 1 := by
  induction l generalizing st with
  | nil => exact Except.ok.inj h ▸ hs
  | cons c t ih =>
    simp only [opScan] at h
    split at h
    · exact ih h hs
    · split at h
      · exact Except.ok.inj h ▸ hs
      · split at h
        · split at h
          · exact ih h hs
          · exact ih h hs
        · split at h
          · split at h
            · exact ih h (Nat.le_refl 1)
            · exact Except.noConfusion h
          · split at h
            · split at h
              · exact ih h hs
              · exact ih h hs
            · exact ih h hs

theorem emitInstr_write_shape {imap : List (Nat × Nat)} {st : St} {l mn : List Nat}
    {o : OpSt} {t : St} (h : emitInstr imap true st l mn o = .ok t)
    (hn : o.numops ≤ 1) :
    t.lblmap = st.lblmap ∧ t.dirs = st.dirs ∧ t.adjustBase = st.adjustBase ∧
    t.caddr + st.out.length = st.caddr + t.out.length := by
  simp only [emitInstr] at h
  split at h
  · exact Except.noConfusion h
  · split at h
    · exact Except.noConfusion h
    · obtain rfl := Except.ok.inj h
      refine ⟨rfl, rfl, rfl, ?_⟩
      simp only [if_true, List.length_append, List.length_cons, List.length_take,
        List.length_cons, List.length_singleton]
      have hN : (if o.optype1 ≠ 0 then 2 else if o.optype0 ≠ 0 then 1 else o.numops) ≤ 2 := by
        split
        · omega
        · split
          · omega
          · omega
      omega

theorem instrStep_write_shape {imap : List (Nat × Nat)} {st : St} {l : List Nat}
    {t : St} (h : instrStep imap true st l = .ok t) :
    t.lblmap = st.lblmap ∧ t.dirs = st.dirs ∧ t.adjustBase = st.adjustBase ∧
    t.caddr + st.out.length = st.caddr + t.out.length := by
  simp only [instrStep] at h
  split at h
  · split at h
    · exact Except.noConfusion h
    · exact emitInstr_write_shape h (Nat.le_refl 1)
  · split at h
    · exact Except.noConfusion h
    · rename_i o ho
      exact emitInstr_write_shape h (opScan_numops_le ho (Nat.zero_le 1))

theorem processLine_write_shape {imap : List (Nat × Nat)} {st : St} {l : List Nat}
    {t : St} (h : processLine imap true st l = .ok t) :
    t.lblmap = st.lblmap ∧ t.dirs = st.dirs ∧ t.adjustBase = st.adjustBase ∧
    t.caddr + st.out.length = st.caddr + t.out.length := by
  simp only [processLine] at h
  split at h
  · obtain rfl := Except.ok.inj h
    exact ⟨rfl, rfl, rfl, rfl⟩
  · split at h
    · obtain rfl := Except.ok.inj h
      exact ⟨rfl, rfl, rfl, rfl⟩
    · split at h
      · obtain rfl := Except.ok.inj h
        exact ⟨rfl, rfl, rfl, rfl⟩
      · split at h
        · obtain rfl := Except.ok.inj h
          exact ⟨rfl, rfl, rfl, rfl⟩
        · exact instrStep_write_shape h

theorem runLines_write_shape {imap : List (Nat × Nat)} {lines : List (List Nat)} :
    ∀ {st t : St}, runLines imap true st lines = .ok t →
    t.lblmap = st.lblmap ∧ t.dirs = st.dirs ∧ t.adjustBase = st.adjustBase ∧
    t.caddr + st.out.length = st.caddr + t.out.length := by
  induction lines with
  | nil =>
    intro st t h
    obtain rfl := Except.ok.inj h
    exact ⟨rfl, rfl, rfl, by omega⟩
  | cons l rest ih =>
    intro st t h
    simp only [runLines] at h
    split at h
    · exact Except.noConfusion h
    · rename_i st' hs
      obtain ⟨a1, a2, a3, a4⟩ := processLine_write_shape hs
      obtain ⟨b1, b2, b3, b4⟩ := ih h
      exact ⟨b1.trans a1, b2.trans a2, b3.trans a3, by omega⟩

theorem trim_mnem_line {pre opText : List Nat} (hpre : isWhiteN pre.headI = false)
    (hprene : pre ≠ []) (hop : ∀ c ∈ opText, isWhiteN c = false) (hne : opText ≠ []) :
    trim (pre ++ 32 :: opText) = pre ++ 32 :: opText := by
  apply trim_eq_self_of_ends
  · rw [headI_append hprene]; exact hpre
  · have hrne : opText.reverse ≠ [] := by simpa using hne
    have e : (pre ++ 32 :: opText).reverse = opText.reverse ++ (32 :: pre.reverse) := by
      simp
    rw [e, headI_append hrne]
    exact hop _ (List.mem_reverse.mp (headI_mem hrne))

theorem emitInstr_pass1_twin (imap : List (Nat × Nat)) (b : Nat)
    (m1 d1 : List (List Nat × Nat)) (a1 : Bool) (c1 n1 : Nat) (o1 : List Nat)
    (d2 : List (List Nat × Nat)) (a2 : Bool) (o2 : List Nat)
    (l mn : List Nat) (o : OpSt) :
    emitInstr imap false ⟨shiftMap b m1, d2, a2, c1 + b, n1, o2⟩ l mn o =
      (emitInstr imap false ⟨m1, d1, a1, c1, n1, o1⟩ l mn o).map (twinMap b d2 a2 o2) := by
  simp only [emitInstr]
  cases hb : buildIcode mn o.optype0 o.optype1 with
  | error e => simp [hb, Except.map]
  | ok ic =>
    simp only [hb]
    cases hl : nlookup imap ic with
    | none => simp [hl, Except.map]
    | some mpc =>
      simp [hl, Except.map, twinMap, St.mk.injEq]
      omega

theorem instrStep_pass1_twin (imap : List (Nat × Nat)) (b : Nat)
    (m1 d1 : List (List Nat × Nat)) (a1 : Bool) (c1 n1 : Nat) (o1 : List Nat)
    (d2 : List (List Nat × Nat)) (a2 : Bool) (o2 : List Nat) (l : List Nat) :
    instrStep imap false ⟨shiftMap b m1, d2, a2, c1 + b, n1, o2⟩ l =
      (instrStep imap false ⟨m1, d1, a1, c1, n1, o1⟩ l).map (twinMap b d2 a2 o2) := by
  simp only [instrStep, Bool.false_eq_true, false_and, if_false]
  cases ho : opScan ⟨0, 0, 0, 0, 0⟩ (readMnemonic l).2 with
  | error e => simp [ho, Except.map]
  | ok o =>
    simp only [ho]
    exact emitInstr_pass1_twin imap b m1 d1 a1 c1 n1 o1 d2 a2 o2 l (readMnemonic l).1 o

theorem processLine_pass1_twin (imap : List (Nat × Nat)) (b : Nat)
    (m1 d1 : List (List Nat × Nat)) (a1 : Bool) (c1 n1 : Nat) (o1 : List Nat)
    (d2 : List (List Nat × Nat)) (a2 : Bool) (o2 : List Nat) (l : List Nat)
    (hd : (trim l).headI ≠ 64) :
    processLine imap false ⟨shiftMap b m1, d2, a2, c1 + b, n1, o2⟩ l =
      (processLine imap false ⟨m1, d1, a1, c1, n1, o1⟩ l).map (twinMap b d2 a2 o2) := by
  simp only [processLine]
  by_cases h1 : trim l = []
  · simp [h1, Except.map, twinMap]
  by_cases h2 : (trim l).headI = 35
  · simp [if_neg h1, h2, Except.map, twinMap]
  simp only [if_neg h1, if_neg h2, if_neg hd]
  cases hbl : breakLast 58 (trim l) with
  | some pr =>
    obtain ⟨pre, r2⟩ := pr
    simp [hbl, Except.map, twinMap, shiftMap, Nat.mod_add_mod]
  | none =>
    simp only [hbl]
    exact instrStep_pass1_twin imap b m1 d1 a1 c1 n1 o1 d2 a2 o2 (trim l)

theorem runLines_pass1_twin (imap : List (Nat × Nat)) (b : Nat) :
    ∀ (lines : List (List Nat)), (∀ l ∈ lines, (trim l).headI ≠ 64) →
    ∀ (m1 d1 : List (List Nat × Nat)) (a1 : Bool) (c1 n1 : Nat) (o1 : List Nat)
      (d2 : List (List Nat × Nat)) (a2 : Bool) (o2 : List Nat),
    runLines imap false ⟨shiftMap b m1, d2, a2, c1 + b, n1, o2⟩ lines =
      (runLines imap false ⟨m1, d1, a1, c1, n1, o1⟩ lines).map (twinMap b d2 a2 o2) := by
  intro lines
  induction lines with
  | nil =>
    intro _ m1 d1 a1 c1 n1 o1 d2 a2 o2
    simp [runLines, Except.map, twinMap]
  | cons l rest ih =>
    intro hnd m1 d1 a1 c1 n1 o1 d2 a2 o2
    have hdl := hnd l (List.mem_cons_self l rest)
    have hrest : ∀ x ∈ rest, (trim x).headI ≠ 64 :=
      fun x hx => hnd x (List.mem_cons_of_mem l hx)
    simp only [runLines]
    rw [processLine_pass1_twin imap b m1 d1 a1 c1 n1 o1 d2 a2 o2 l hdl]
    cases hp : processLine imap false ⟨m1, d1, a1, c1, n1, o1⟩ l with
    | error e => simp [Except.map]
    | ok t =>
      simp only [Except.map]
      obtain ⟨tm, td, ta, tc, tn, tout⟩ := t
      exact ih hrest tm td ta tc tn tout d2 a2 o2

theorem processLine_jmp_eval (imap : List (Nat × Nat)) (st : St) (mnem opText : List Nat)
    (hup : mnem.map toupperN = mnem) (hmem : mnem ∈ jmpcodesL)
    (h32m : 32 ∉ mnem) (h58m : 58 ∉ mnem)
    (hWm : isWhiteN mnem.headI = false) (h35m : mnem.headI ≠ 35) (h64m : mnem.headI ≠ 64)
    (hmne : mnem ≠ [])
    (hop : ∀ c ∈ opText, isWhiteN c = false ∧ c ≠ 35 ∧ c ≠ 58) (hne : opText ≠ []) :
    processLine imap true st (mnem ++ 32 :: opText) =
      (match alookup st.lblmap opText with
       | some a =>
         emitInstr imap true st (mnem ++ 32 :: opText) mnem
           ⟨1, if mnem.headI = 66 then branchEncode a st.caddr else a, 0, 1, 0⟩
       | none =>
         if opText.length > 2 then
           .error ⟨.badJmpOperand, st.linenum, mnem ++ 32 :: opText⟩
         else
           emitInstr imap true st (mnem ++ 32 :: opText) mnem
             ⟨1, (hexLit opText + baseDir st.dirs) % 256, 0, 1, 0⟩) := by
  have hopw : ∀ c ∈ opText, isWhiteN c = false := fun c hc => (hop c hc).1
  have hop35 : (35 : Nat) ∉ opText := fun hc => by simpa using (hop 35 hc).2.1
  have hop58 : (58 : Nat) ∉ opText := fun hc => by simpa using (hop 58 hc).2.2
  have htr : trim (mnem ++ 32 :: opText) = mnem ++ 32 :: opText :=
    trim_mnem_line hWm hmne hopw hne
  have hne2 : mnem ++ 32 :: opText ≠ [] := by simp
  have hh : (mnem ++ 32 :: opText).headI = mnem.headI := headI_append hmne
  have h58 : (58 : Nat) ∉ mnem ++ 32 :: opText := by
    intro hx
    rcases List.mem_append.mp hx with hx | hx
    · exact h58m hx
    · rcases List.mem_cons.mp hx with hx | hx
      · exact absurd hx (by decide)
      · exact hop58 hx
  rw [processLine_instr_dispatch imap true st _ htr hne2 (by rw [hh]; exact h35m)
      (by rw [hh]; exact h64m) (breakLast_of_not_mem h58)]
  rw [instrStep_jmp imap st mnem opText (by rw [hup]; exact hmem) h32m]
  rw [jmpOperand_eval st (mnem.map toupperN) opText hop35 (trim_eq_self_all hopw)]
  rw [hup]
  cases hl : alookup st.lblmap opText with
  | some a => simp only [hl]
  | none =>
    simp only [hl]
    by_cases hlen : opText.length > 2
    · rw [if_pos hlen, if_pos hlen]
    · rw [if_neg hlen, if_neg hlen]

theorem shl24 (a : Nat) : a <<< 24 = a * 16777216 := by
  rw [Nat.shiftLeft_eq]

theorem shl16 (a : Nat) : a <<< 16 = a * 65536 := by
  rw [Nat.shiftLeft_eq]

theorem shl8 (a : Nat) : a <<< 8 = a * 256 := by
  rw [Nat.shiftLeft_eq]

theorem lor_add24 {x y : Nat} (hx : x % 16777216 = 0) (hy : y < 16777216) :
    x ||| y = x + y := lor_eq_add_of_lt (k := 24) hx hy

theorem lor_add16 {x y : Nat} (hx : x % 65536 = 0) (hy : y < 65536) :
    x ||| y = x + y := lor_eq_add_of_lt (k := 16) hx hy

theorem lor_add8 {x y : Nat} (hx : x % 256 = 0) (hy : y < 256) :
    x ||| y = x + y := lor_eq_add_of_lt (k := 8) hx hy

/-! ### Claim theorems -/

/-- Claim C9: for any instruction map containing an entry for the key
0x41444421 (ADD with a direct-address and an immediate operand), the second
pass processes the line `ADD $04, 5` by emitting exactly the three bytes
target, 0x04, 0x05, in that order, advancing the program address by 3. -/
theorem claim_C9 (imap : List (Nat × Nat)) (m : Nat) (st : St)
    (h : nlookup imap 0x41444421 = some m) :
    processLine imap true st lineADD =
      .ok { st with out := st.out ++ [m, 4, 5], caddr := st.caddr + 3,
                    linenum := st.linenum + 1 } := by
  have e : processLine imap true st lineADD =
      (match nlookup imap 0x41444421 with
       | none => .error ⟨.unmappable, st.linenum, lineADD⟩
       | some mpc =>
         .ok { st with out := st.out ++ [mpc, 4, 5], caddr := st.caddr + 3,
                       linenum := st.linenum + 1 }) := rfl
  rw [e, h]

/-- Witness for claim C9 at the built-in map, whose ADD entry is 0x0B. -/
theorem claim_C9_witness :
    processLine imap0 true initSt lineADD = .ok ⟨[], dirs0, false, 3, 2, [11, 4, 5]⟩ :=
  (claim_C9 imap0 11 initSt (by decide)).trans (by decide)

/-- Claim C1: in the program `progC1` (base address 0, label `a` defined at
program address 0x02, `BR a` with its operand byte at program address 0x18)
the whole run succeeds and the operand byte emitted at address 0x18 is
0xE9 = 233, which is exactly 0x02 - (0x18 + 1) reduced to a twos-complement
byte. -/
theorem claim_C1 :
    ∃ s : St, assemble imap0 progC1 = .ok s ∧ s.out.length = 25 ∧
      s.out[24]? = some 233 ∧ (233 : Nat) = byteOfInt ((2 : Int) - (24 + 1)) := by
  refine ⟨⟨[([97], 2)], dirs0, false, 25, 11,
    [80, 0, 4, 0, 0, 4, 0, 0, 4, 0, 0, 4, 0, 0, 4, 0, 0, 4, 0, 0, 4, 0, 0, 128, 233]⟩,
    by decide, by decide, by decide, by decide⟩

/-- Claim C6 (code bug): on the two-line program `@base_addr=1F`, `FOO` the
run aborts on the unmappable instruction `FOO`, which is the SECOND source
line (index 1 of the program), yet the diagnostic carries line number 1:
the directive path of parse does not increment the line counter. -/
theorem claim_C6 :
    parseRun imap0 false initSt progC6 = .error ⟨.unmappable, 1, [70, 79, 79]⟩ ∧
    assemble imap0 progC6 = .error ⟨.unmappable, 1, [70, 79, 79]⟩ ∧
    progC6[1]? = some [70, 79, 79] := by
  refine ⟨by decide, by decide, by decide⟩

/-- Claim C2: on the writing pass, a relative-branch line (BR, BRZ or BRN)
whose operand text is a known label with stored address `a` emits, after the
target byte, the operand byte `sgn(a) - (caddr + ALU_CARRY_ADJUST)` when
`a < caddr` (back branch) and `sgn(a) - (caddr + 1)` otherwise (forward
branch), reduced to a twos-complement byte, where `sgn` is the signed
reading of the stored (low-byte) label address and `caddr` is the program
address of the branch opcode. -/
theorem claim_C2 (imap : List (Nat × Nat)) (st : St) (mnem opText : List Nat)
    (a k m : Nat)
    (hm : mnem = [66, 82] ∨ mnem = [66, 82, 90] ∨ mnem = [66, 82, 78])
    (hop : ∀ c ∈ opText, isWhiteN c = false ∧ c ≠ 35 ∧ c ≠ 58)
    (hne : opText ≠ [])
    (ha : alookup st.lblmap opText = some a)
    (hk : buildIcode mnem 1 0 = .ok k)
    (hmk : nlookup imap k = some m) :
    processLine imap true st (mnem ++ 32 :: opText) =
      .ok { st with
            out := st.out ++ [m,
              if a < st.caddr then
                byteOfInt (sgnByte a - ((st.caddr : Int) + (aluCarryAdjust : Int)))
              else byteOfInt (sgnByte a - ((st.caddr : Int) + 1))],
            caddr := st.caddr + 2, linenum := st.linenum + 1 } := by
  rcases hm with rfl | rfl | rfl <;>
    (rw [processLine_jmp_eval imap st _ opText (by decide) (by decide) (by decide)
          (by decide) (by decide) (by decide) (by decide) (by decide) hop hne]
     simp only [ha]
     rw [emitInstr_jmpOk imap st _ _ _ k m hk hmk]
     simp [List.headI, branchEncode])

/-- Witness for claim C2: `BR a` with label `a` at address 2 and the branch
opcode at address 23 = 0x17 (a back branch) emits 0xE9 = 233. -/
theorem claim_C2_witness :
    processLine imap0 true ⟨[([97], 2)], dirs0, false, 23, 10, []⟩ [66, 82, 32, 97] =
      .ok ⟨[([97], 2)], dirs0, false, 25, 11, [128, 233]⟩ :=
  (claim_C2 imap0 ⟨[([97], 2)], dirs0, false, 23, 10, []⟩ [66, 82] [97] 2 0x42520010 128
    (Or.inl rfl) (by decide) (by decide) (by decide) (by decide) (by decide)).trans
    (by decide)

/-- Claim C3, amended: a jump/branch operand that is not a known label and is
at most 2 characters of hex text is emitted as its literal hex value PLUS
the base_addr value (reduced to a byte) -- not unchanged, as the source adds
the base address to the literal before emission; a non-label operand text
longer than 2 characters is a hard error aborting the run. -/
theorem claim_C3 :
    (∀ (imap : List (Nat × Nat)) (st : St) (mnem opText : List Nat) (k m : Nat),
      mnem ∈ jmpcodesL →
      (∀ c ∈ opText, (48 ≤ c ∧ c ≤ 57) ∨ (65 ≤ c ∧ c ≤ 70) ∨ (97 ≤ c ∧ c ≤ 102)) →
      opText ≠ [] → opText.length ≤ 2 →
      alookup st.lblmap opText = none →
      buildIcode mnem 1 0 = .ok k → nlookup imap k = some m →
      processLine imap true st (mnem ++ 32 :: opText) =
        .ok { st with
              out := st.out ++ [m, (hexLit opText + baseDir st.dirs) % 256],
              caddr := st.caddr + 2, linenum := st.linenum + 1 }) ∧
    (∀ (imap : List (Nat × Nat)) (st : St) (mnem opText : List Nat),
      mnem ∈ jmpcodesL →
      (∀ c ∈ opText, isWhiteN c = false ∧ c ≠ 35 ∧ c ≠ 58) →
      opText ≠ [] → 2 < opText.length →
      alookup st.lblmap opText = none →
      processLine imap true st (mnem ++ 32 :: opText) =
        .error ⟨.badJmpOperand, st.linenum, mnem ++ 32 :: opText⟩) := by
  constructor
  · intro imap st mnem opText k m hmem hhex hne hlen hnl hk hmk
    have hop : ∀ c ∈ opText, isWhiteN c = false ∧ c ≠ 35 ∧ c ≠ 58 := by
      intro c hc
      refine ⟨isWhiteN_eq_false_iff.mpr ?_, ?_, ?_⟩ <;>
        (rcases hhex c hc with h | h | h <;> omega)
    simp only [jmpcodesL, List.mem_cons, List.not_mem_nil, or_false] at hmem
    rcases hmem with rfl | rfl | rfl | rfl | rfl <;>
      (rw [processLine_jmp_eval imap st _ opText (by decide) (by decide) (by decide)
            (by decide) (by decide) (by decide) (by decide) (by decide) hop hne]
       simp only [hnl]
       rw [if_neg (by omega)]
       rw [emitInstr_jmpOk imap st _ _ _ k m hk hmk])
  · intro imap st mnem opText hmem hop hne hlen hnl
    simp only [jmpcodesL, List.mem_cons, List.not_mem_nil, or_false] at hmem
    rcases hmem with rfl | rfl | rfl | rfl | rfl <;>
      (rw [processLine_jmp_eval imap st _ opText (by decide) (by decide) (by decide)
            (by decide) (by decide) (by decide) (by decide) (by decide) hop hne]
       simp only [hnl]
       rw [if_pos hlen])

/-- Witness for claim C3: `JMP 05` with base 0x1F emits operand 0x24 = 36;
`JMP 000` (three characters, no label) aborts with the bad-operand error. -/
theorem claim_C3_witness :
    processLine imap0 true ⟨[], (baseAddrKey, 31) :: dirs0, false, 31, 2, []⟩
        [74, 77, 80, 32, 48, 53] =
      .ok ⟨[], (baseAddrKey, 31) :: dirs0, false, 33, 3, [80, 36]⟩ ∧
    processLine imap0 true initSt [74, 77, 80, 32, 48, 48, 48] =
      .error ⟨.badJmpOperand, 1, [74, 77, 80, 32, 48, 48, 48]⟩ :=
  ⟨(claim_C3.1 imap0 ⟨[], (baseAddrKey, 31) :: dirs0, false, 31, 2, []⟩
      [74, 77, 80] [48, 53] 0x4A4D5010 0x50 (by decide) (by decide) (by decide)
      (by decide) (by decide) (by decide) (by decide)).trans (by decide),
   (claim_C3.2 imap0 initSt [74, 77, 80] [48, 48, 48] (by decide) (by decide)
      (by decide) (by decide) (by decide)).trans (by decide)⟩

/-- Counterexample to claim C3: with `@base_addr=1F` in effect, the literal
jump operand `05` of `JMP 05` is NOT emitted unchanged: the base address is
added first (line 563 of the source), so the emitted operand byte is
0x24 = 36, not 0x05. -/
theorem claim_C3_counterexample :
    assemble imap0 progC3 = .ok ⟨[], (baseAddrKey, 31) :: dirs0, false, 33, 2, [80, 36]⟩ ∧
    (36 : Nat) ≠ 5 := by
  refine ⟨by decide, by decide⟩

/-- Claim C7: prepending `@base_addr=1F` to a directive-free program shifts
every label address recorded in pass 1 by 0x1F = 31 (modulo the byte width
of the label table) and the final pass-1 program address by 31; the base
value is re-applied as the starting offset of pass 2, so every emitted byte
of pass 2 sits at program address 31 plus its output index (equivalently the
final address is 31 plus the byte count), and the byte count reported on
success, `caddr - base`, equals exactly the number of emitted bytes. -/
theorem claim_C7 (imap : List (Nat × Nat)) (rest : List (List Nat))
    (hnd : ∀ l ∈ rest, (trim l).headI ≠ 64) (s0 : St)
    (h0 : parseRun imap false initSt rest = .ok s0) :
    ∃ s1, parseRun imap false initSt (dirLine1F :: rest) = .ok s1 ∧
      s1.lblmap = shiftMap 31 s0.lblmap ∧ s1.caddr = s0.caddr + 31 ∧
      s1.adjustBase = true ∧ baseDir s1.dirs = 31 ∧ s1.out = [] ∧
      (∀ s2, parseRun imap true { s1 with caddr := 0, linenum := 1 }
          (dirLine1F :: rest) = .ok s2 →
        s2.caddr = 31 + s2.out.length ∧ reportedCount s2 = s2.out.length) ∧
      assemble imap (dirLine1F :: rest) =
        parseRun imap true { s1 with caddr := 0, linenum := 1 }
          (dirLine1F :: rest) := by
  have step1 : processLine imap false initSt dirLine1F =
      .ok ⟨shiftMap 31 [], (baseAddrKey, 31) :: dirs0, true, 0 + 31, 1, []⟩ := rfl
  have h0' : runLines imap false ⟨[], dirs0, false, 0, 1, []⟩ rest = .ok s0 := h0
  have e1 : runLines imap false initSt (dirLine1F :: rest) =
      runLines imap false ⟨shiftMap 31 [], (baseAddrKey, 31) :: dirs0, true, 0 + 31, 1, []⟩
        rest := by
    simp only [runLines, step1]
  have e2 := runLines_pass1_twin imap 31 rest hnd [] dirs0 false 0 1 []
    ((baseAddrKey, 31) :: dirs0) true []
  rw [h0'] at e2
  have hok : parseRun imap false initSt (dirLine1F :: rest) =
      .ok (twinMap 31 ((baseAddrKey, 31) :: dirs0) true [] s0) :=
    e1.trans (e2.trans rfl)
  refine ⟨twinMap 31 ((baseAddrKey, 31) :: dirs0) true [] s0, hok, rfl, rfl, rfl, rfl, rfl,
    ?_, ?_⟩
  · intro s2 h2
    have h2' : runLines imap true
        ⟨shiftMap 31 s0.lblmap, (baseAddrKey, 31) :: dirs0, false, 0 + 31, 1, []⟩
        (dirLine1F :: rest) = .ok s2 := h2
    obtain ⟨w1, w2, w3, w4⟩ := runLines_write_shape h2'
    have hcad : s2.caddr = 31 + s2.out.length := by
      simpa using w4
    have hbd : baseDir s2.dirs = 31 := by rw [w2]; rfl
    refine ⟨hcad, ?_⟩
    unfold reportedCount
    rw [hbd]
    omega
  · unfold assemble
    rw [hok]

/-- Witness for claim C7 on the program `@base_addr=1F`, `a:`, `HLT`. -/
theorem claim_C7_witness :
    ∃ s1, parseRun imap0 false initSt (dirLine1F :: [[97, 58], [72, 76, 84]]) = .ok s1 ∧
      s1.lblmap = shiftMap 31 [([97], 0)] ∧ s1.caddr = 1 + 31 ∧
      s1.adjustBase = true ∧ baseDir s1.dirs = 31 ∧ s1.out = [] ∧
      (∀ s2, parseRun imap0 true { s1 with caddr := 0, linenum := 1 }
          (dirLine1F :: [[97, 58], [72, 76, 84]]) = .ok s2 →
        s2.caddr = 31 + s2.out.length ∧ reportedCount s2 = s2.out.length) ∧
      assemble imap0 (dirLine1F :: [[97, 58], [72, 76, 84]]) =
        parseRun imap0 true { s1 with caddr := 0, linenum := 1 }
          (dirLine1F :: [[97, 58], [72, 76, 84]]) :=
  claim_C7 imap0 [[97, 58], [72, 76, 84]] (by decide)
    ⟨[([97], 0)], dirs0, false, 1, 3, []⟩ (by decide)

/-- Claim C4: the 32-bit lookup key places mnemonic characters in the three
high bytes (missing characters giving zero bytes) and the operand-type pair
`(t0 << 4) | t1` in the low byte; a mnemonic longer than 3 characters is a
hard error, and an instruction line carrying such a mnemonic aborts the run
with the invalid-mnemonic error. -/
theorem claim_C4 :
    (∀ a t0 t1 : Nat, a < 256 → t0 ≤ 2 → t1 ≤ 2 →
      buildIcode [a] t0 t1 = .ok (a * 16777216 + (t0 * 16 + t1))) ∧
    (∀ a b t0 t1 : Nat, a < 256 → b < 256 → t0 ≤ 2 → t1 ≤ 2 →
      buildIcode [a, b] t0 t1 = .ok (a * 16777216 + b * 65536 + (t0 * 16 + t1))) ∧
    (∀ a b c t0 t1 : Nat, a < 256 → b < 256 → c < 256 → t0 ≤ 2 → t1 ≤ 2 →
      buildIcode [a, b, c] t0 t1 =
        .ok (a * 16777216 + b * 65536 + c * 256 + (t0 * 16 + t1))) ∧
    (∀ (mnem : List Nat) (t0 t1 : Nat), 3 < mnem.length →
      buildIcode mnem t0 t1 = .error ()) ∧
    (∀ (imap : List (Nat × Nat)) (write : Bool) (st : St) (mnem : List Nat),
      3 < mnem.length → (∀ c ∈ mnem, isWhiteN c = false ∧ c ≠ 58) →
      mnem.headI ≠ 35 → mnem.headI ≠ 64 →
      processLine imap write st mnem =
        .error ⟨.invalidMnemonic, st.linenum, mnem.map toupperN⟩) := by
  refine ⟨?_, ?_, ?_, ?_, ?_⟩
  · intro a t0 t1 ha ht0 ht1
    have e : buildIcode [a] t0 t1 =
        .ok ((0 ||| (a <<< 24)) ||| ((t0 <<< 4) ||| (t1 &&& 15))) := rfl
    have hb0 : (t0 <<< 4) ||| (t1 &&& 15) = t0 * 16 + t1 := by
      interval_cases t0 <;> interval_cases t1 <;> decide
    have e1 : (a <<< 24) ||| (t0 * 16 + t1) = a * 16777216 + (t0 * 16 + t1) := by
      rw [shl24]
      exact lor_add8 (by omega) (by omega)
    rw [e, Nat.zero_or, hb0, e1]
  · intro a b t0 t1 ha hb ht0 ht1
    have e : buildIcode [a, b] t0 t1 =
        .ok (((0 ||| (a <<< 24)) ||| (b <<< 16)) ||| ((t0 <<< 4) ||| (t1 &&& 15))) := rfl
    have hb0 : (t0 <<< 4) ||| (t1 &&& 15) = t0 * 16 + t1 := by
      interval_cases t0 <;> interval_cases t1 <;> decide
    have e1 : (a <<< 24) ||| (b <<< 16) = a * 16777216 + b * 65536 := by
      rw [shl24, shl16]
      exact lor_add24 (by omega) (by omega)
    have e2 : (a * 16777216 + b * 65536) ||| (t0 * 16 + t1) =
        a * 16777216 + b * 65536 + (t0 * 16 + t1) := lor_add8 (by omega) (by omega)
    rw [e, Nat.zero_or, hb0, e1, e2]
  · intro a b c t0 t1 ha hb hc ht0 ht1
    have e : buildIcode [a, b, c] t0 t1 =
        .ok ((((0 ||| (a <<< 24)) ||| (b <<< 16)) ||| (c <<< 8)) |||
          ((t0 <<< 4) ||| (t1 &&& 15))) := rfl
    have hb0 : (t0 <<< 4) ||| (t1 &&& 15) = t0 * 16 + t1 := by
      interval_cases t0 <;> interval_cases t1 <;> decide
    have e1 : (a <<< 24) ||| (b <<< 16) = a * 16777216 + b * 65536 := by
      rw [shl24, shl16]
      exact lor_add24 (by omega) (by omega)
    have e2 : (a * 16777216 + b * 65536) ||| (c <<< 8) =
        a * 16777216 + b * 65536 + c * 256 := by
      rw [shl8]
      exact lor_add16 (by omega) (by omega)
    have e3 : (a * 16777216 + b * 65536 + c * 256) ||| (t0 * 16 + t1) =
        a * 16777216 + b * 65536 + c * 256 + (t0 * 16 + t1) :=
      lor_add8 (by omega) (by omega)
    rw [e, Nat.zero_or, hb0, e1, e2, e3]
  · intro mnem t0 t1 h
    exact buildIcode_long t0 t1 h
  · intro imap write st mnem hlen hchar h35 h64
    have hW : ∀ c ∈ mnem, isWhiteN c = false := fun c hc => (hchar c hc).1
    have h58 : (58 : Nat) ∉ mnem := fun hc => by simpa using (hchar 58 hc).2
    have h32 : (32 : Nat) ∉ mnem := fun hc => absurd (hW 32 hc) (by decide)
    have hmne : mnem ≠ [] := by
      intro h
      rw [h] at hlen
      simp at hlen
    rw [processLine_instr_dispatch imap write st mnem (trim_eq_self_all hW) hmne h35 h64
        (breakLast_of_not_mem h58)]
    rw [instrStep_generic imap write st mnem (mnem.map toupperN) [] (readMnemonic_all h32)
        (fun hj => absurd hj.2 (not_mem_jmpcodes_of_long (by simpa using hlen)))]
    exact emitInstr_badMnem imap write st mnem (mnem.map toupperN) ⟨0, 0, 0, 0, 0⟩
      (buildIcode_long 0 0 (by simpa using hlen))

/-- Witness for claim C4 on the mnemonics A, AD, ADD (packing) and the
4-character line `abcd` (abort with the uppercased mnemonic in the
diagnostic). -/
theorem claim_C4_witness :
    buildIcode [65] 1 2 = .ok (65 * 16777216 + (1 * 16 + 2)) ∧
    buildIcode [65, 68] 2 0 = .ok (65 * 16777216 + 68 * 65536 + (2 * 16 + 0)) ∧
    buildIcode [65, 68, 68] 2 1 =
      .ok (65 * 16777216 + 68 * 65536 + 68 * 256 + (2 * 16 + 1)) ∧
    buildIcode [65, 66, 67, 68] 0 0 = .error () ∧
    processLine imap0 true initSt [97, 98, 99, 100] =
      .error ⟨.invalidMnemonic, 1, [65, 66, 67, 68]⟩ :=
  ⟨claim_C4.1 65 1 2 (by decide) (by decide) (by decide),
   claim_C4.2.1 65 68 2 0 (by decide) (by decide) (by decide) (by decide),
   claim_C4.2.2.1 65 68 68 2 1 (by decide) (by decide) (by decide) (by decide) (by decide),
   claim_C4.2.2.2.1 [65, 66, 67, 68] 0 0 (by decide),
   (claim_C4.2.2.2.2 imap0 true initSt [97, 98, 99, 100] (by decide) (by decide)
      (by decide) (by decide)).trans (by decide)⟩

/-- Claim C5, amended: a SECOND comma in the operand list is a hard error
(the source error message calls it a leading comma), but a comma before any
operand has been started is accepted silently, moving parsing to the second
operand slot; the second-comma error aborts the run, as on `ADD $04, 5, 6`. -/
theorem claim_C5 :
    (∀ (st : OpSt) (cs1 cs2 cs3 : List Nat), st.numops = 0 →
      (∀ c ∈ cs1, c ≠ 44 ∧ c ≠ 35) → (∀ c ∈ cs2, c ≠ 44 ∧ c ≠ 35) →
      opScan st (cs1 ++ 44 :: (cs2 ++ 44 :: cs3)) = .error ()) ∧
    (∀ (st : OpSt) (cs : List Nat), st.numops = 0 →
      opScan st (44 :: cs) = opScan { st with numops := 1 } cs) ∧
    assemble imap0 [lineADD2c] = .error ⟨.leadingComma, 1, lineADD2c⟩ := by
  have step : ∀ (u : OpSt) (l : List Nat), u.numops = 0 →
      opScan u (44 :: l) = opScan { u with numops := 1 } l := by
    intro u l hu
    have e : opScan u (44 :: l) =
        (if u.numops = 0 then opScan { u with numops := 1 } l else .error ()) := rfl
    rw [e, if_pos hu]
  refine ⟨?_, step, by decide⟩
  intro st cs1 cs2 cs3 h0 h1 h2
  obtain ⟨st1, he1, hn1⟩ := opScan_stable h1 st (44 :: (cs2 ++ 44 :: cs3))
  rw [he1, step st1 _ (hn1.trans h0)]
  obtain ⟨st2, he2, hn2⟩ := opScan_stable h2 { st1 with numops := 1 } (44 :: cs3)
  rw [he2]
  have e2 : opScan st2 (44 :: cs3) =
      (if st2.numops = 0 then opScan { st2 with numops := 1 } cs3 else .error ()) := rfl
  rw [e2, if_neg (by rw [hn2]; simp)]

/-- Witness for claim C5: scanning `4,5,` errors on the second comma, while
a leading comma alone moves to the second operand slot without error. -/
theorem claim_C5_witness :
    opScan ⟨0, 0, 0, 0, 0⟩ ([52] ++ 44 :: ([53] ++ 44 :: [])) = .error () ∧
    opScan ⟨0, 0, 0, 0, 0⟩ (44 :: [52]) = opScan ⟨1, 0, 0, 0, 0⟩ [52] :=
  ⟨claim_C5.1 ⟨0, 0, 0, 0, 0⟩ [52] [53] [] rfl (by decide) (by decide),
   claim_C5.2.1 ⟨0, 0, 0, 0, 0⟩ [52] rfl⟩

/-- Claim C8: the label table is never mutated on the writing pass (any
successful pass-2 run leaves it exactly as pass 1 built it), and a label
definition line processed in pass 1 succeeds even when the name is already
bound, the new binding (the current program address, stored as a byte)
silently shadowing the old one. -/
theorem claim_C8 :
    (∀ (imap : List (Nat × Nat)) (st t : St) (lines : List (List Nat)),
      runLines imap true st lines = .ok t → t.lblmap = st.lblmap) ∧
    (∀ (imap : List (Nat × Nat)) (st : St) (name : List Nat) (v : Nat),
      alookup st.lblmap name = some v → name ≠ [] →
      (∀ c ∈ name, isWhiteN c = false ∧ c ≠ 58) →
      name.headI ≠ 35 → name.headI ≠ 64 →
      processLine imap false st (name ++ [58]) =
        .ok { st with lblmap := (name, st.caddr % 256) :: st.lblmap,
                      linenum := st.linenum + 1 } ∧
      alookup ((name, st.caddr % 256) :: st.lblmap) name = some (st.caddr % 256)) := by
  constructor
  · intro imap st t lines h
    exact (runLines_write_shape h).1
  · intro imap st name v hv hne hch h35 h64
    have hW : ∀ c ∈ name, isWhiteN c = false := fun c hc => (hch c hc).1
    have h58 : (58 : Nat) ∉ name := fun hc => by simpa using (hch 58 hc).2
    have hW1 : ∀ c ∈ name ++ [58], isWhiteN c = false := by
      intro c hc
      rcases List.mem_append.mp hc with hc | hc
      · exact hW c hc
      · simp at hc
        subst hc
        decide
    refine ⟨?_, by simp [alookup]⟩
    exact processLine_label_pass1 imap st _ name [] (trim_eq_self_all hW1) (by simp)
      (by rw [headI_append hne]; exact h35) (by rw [headI_append hne]; exact h64)
      (breakLast_append_self h58)

/-- Witness for claim C8: a 1-line pass-2 run (`HLT`) preserves the label
table, and redefining label `a` (previously at 5) in pass 1 at address 0
succeeds and makes lookups return 0. -/
theorem claim_C8_witness :
    ((⟨[], dirs0, false, 1, 2, [3]⟩ : St).lblmap = initSt.lblmap) ∧
    (processLine imap0 false ⟨[([97], 5)], dirs0, false, 0, 1, []⟩ [97, 58] =
       .ok ⟨([97], 0) :: [([97], 5)], dirs0, false, 0, 2, []⟩ ∧
     alookup (([97], 0) :: [([97], 5)]) [97] = some 0) :=
  ⟨claim_C8.1 imap0 initSt ⟨[], dirs0, false, 1, 2, [3]⟩ [[72, 76, 84]] (by decide),
   claim_C8.2 imap0 ⟨[([97], 5)], dirs0, false, 0, 1, []⟩ [97] 5 (by decide) (by decide)
     (by decide) (by decide) (by decide)⟩

/-- Claim C10: a jump/branch line whose label operand contains no hex digit
character (letters G-Z in either case, or underscore) aborts already in
pass 1 with the unmappable-instruction error, even though the label is
defined on the previous line: label resolution runs only in pass 2, and the
pass-1 generic operand scanner ignores every character of the name, leaving
zero operands and a lookup key with no entry in the built-in map. -/
theorem claim_C10 (name mnem : List Nat) (hmem : mnem ∈ jmpcodesL) (hne : name ≠ [])
    (hch : ∀ c ∈ name, nonHexIdentN c) :
    parseRun imap0 false initSt [name ++ [58], mnem ++ 32 :: name] =
      .error ⟨.unmappable, 2, mnem ++ 32 :: name⟩ ∧
    assemble imap0 [name ++ [58], mnem ++ 32 :: name] =
      .error ⟨.unmappable, 2, mnem ++ 32 :: name⟩ := by
  have hW : ∀ c ∈ name, isWhiteN c = false := by
    intro c hc
    have := hch c hc
    unfold nonHexIdentN at this
    rw [isWhiteN_eq_false_iff]
    omega
  have h58 : (58 : Nat) ∉ name := by
    intro hc
    have := hch 58 hc
    unfold nonHexIdentN at this
    omega
  have h32 : (32 : Nat) ∉ name := by
    intro hc
    have := hch 32 hc
    unfold nonHexIdentN at this
    omega
  have hW1 : ∀ c ∈ name ++ [58], isWhiteN c = false := by
    intro c hc
    rcases List.mem_append.mp hc with hc | hc
    · exact hW c hc
    · simp at hc
      subst hc
      decide
  have hhead := hch name.headI (headI_mem hne)
  have h35h : name.headI ≠ 35 := by unfold nonHexIdentN at hhead; omega
  have h64h : name.headI ≠ 64 := by unfold nonHexIdentN at hhead; omega
  have step1 : processLine imap0 false initSt (name ++ [58]) =
      .ok { initSt with lblmap := (name, initSt.caddr % 256) :: initSt.lblmap,
                        linenum := initSt.linenum + 1 } :=
    processLine_label_pass1 imap0 initSt _ name [] (trim_eq_self_all hW1) (by simp)
      (by rw [headI_append hne]; exact h35h) (by rw [headI_append hne]; exact h64h)
      (breakLast_append_self h58)
  have main : parseRun imap0 false initSt [name ++ [58], mnem ++ 32 :: name] =
      .error ⟨.unmappable, 2, mnem ++ 32 :: name⟩ := by
    show runLines imap0 false initSt [name ++ [58], mnem ++ 32 :: name] = _
    simp only [runLines, step1]
    simp only [jmpcodesL, List.mem_cons, List.not_mem_nil, or_false] at hmem
    have h32m : (32 : Nat) ∉ mnem := by
      rcases hmem with rfl | rfl | rfl | rfl | rfl <;> decide
    rcases hmem with rfl | rfl | rfl | rfl | rfl <;>
      (rw [processLine_instr_dispatch imap0 false _ _
            (trim_mnem_line (by decide) (by decide) hW hne) (by simp)
            (by rw [headI_append (by decide)]; decide)
            (by rw [headI_append (by decide)]; decide)
            (breakLast_of_not_mem (by
              intro hx
              rcases List.mem_append.mp hx with hx | hx
              · exact absurd hx (by decide)
              · rcases List.mem_cons.mp hx with hx | hx
                · exact absurd hx (by decide)
                · exact h58 hx))]
       rw [instrStep_generic imap0 false _ _ _ name
            (by rw [readMnemonic_append h32m])
            (fun hj => by simpa using hj.1)]
       simp only [opScan_ignored hch])
    · rw [emitInstr_unmappable imap0 false _ _ _ ⟨0, 0, 0, 0, 0⟩ 0x4A4D5000
        (by decide) (by decide)]
      rfl
    · rw [emitInstr_unmappable imap0 false _ _ _ ⟨0, 0, 0, 0, 0⟩ 0x4A535200
        (by decide) (by decide)]
      rfl
    · rw [emitInstr_unmappable imap0 false _ _ _ ⟨0, 0, 0, 0, 0⟩ 0x42520000
        (by decide) (by decide)]
      rfl
    · rw [emitInstr_unmappable imap0 false _ _ _ ⟨0, 0, 0, 0, 0⟩ 0x42525A00
        (by decide) (by decide)]
      rfl
    · rw [emitInstr_unmappable imap0 false _ _ _ ⟨0, 0, 0, 0, 0⟩ 0x42524E00
        (by decide) (by decide)]
      rfl
  refine ⟨main, ?_⟩
  unfold assemble
  rw [main]

/-- Witness for claim C10: the program `loop:` then `BR loop` aborts in
pass 1 with the unmappable-instruction error on source line 2. -/
theorem claim_C10_witness :
    parseRun imap0 false initSt
        [[108, 111, 111, 112] ++ [58], [66, 82] ++ 32 :: [108, 111, 111, 112]] =
      .error ⟨.unmappable, 2, [66, 82] ++ 32 :: [108, 111, 111, 112]⟩ ∧
    assemble imap0 [[108, 111, 111, 112] ++ [58], [66, 82] ++ 32 :: [108, 111, 111, 112]] =
      .error ⟨.unmappable, 2, [66, 82] ++ 32 :: [108, 111, 111, 112]⟩ :=
  claim_C10 [108, 111, 111, 112] [66, 82] (by decide) (by decide) (by decide)

/-- Counterexample to claim C5: a comma appearing before any operand has
been started does NOT cause a hard error: the run on `MOV ,4` (with a map
containing a MOV entry of operand signature (none, immediate)) completes
successfully, the lone operand having been shifted into the second slot. -/
theorem claim_C5_counterexample :
    assemble imapC5 [lineMOVcomma] = .ok ⟨[], dirs0, false, 3, 2, [9, 0, 4]⟩ := by
  decide

end Asm92
